import Mathlib

/-!
Verification of the TaskDock task store (`dock.pyw`).

The program keeps its state in `self.data`, a Python value obtained from
`json.load` (or a default dict), with intended shape
`{"last_date": str, "daily": [{"text": str, "done": bool}, ...], "todo": [...]}`.

We embed the code at two levels:

* `JVal` models arbitrary JSON values as produced by `json.load` (such values
  are tree-shaped: `json.load` never creates aliasing, so in-place mutation of
  a sub-value is faithfully modelled by a functional update).  The
  `TaskManager` methods are translated on `JVal` with Python's dynamic
  semantics made explicit: operations that would raise (`AttributeError`,
  `TypeError`, `KeyError`) return `Except.error`, and each method returns the
  new value of `self.data` together with `some written` when `self.save()`
  ran (`written` is the value serialized to the backing file) and `none`
  when it did not.

* `TMState` is the typed state (a record with a date string and two lists of
  `{text, done}` records); `TMState.toJVal` embeds it into `JVal`.  The
  GUI-layer logic (`refresh_list`, `check_reminders`, item click / context
  menu deletion) is translated over `TMState`.

Floating point: `refresh_list` computes `int((done_c/total)*100)` with Python
floats (IEEE-754 binary64).  We model binary64 rounding exactly over `ℚ`:
`fl q` rounds `q` to 53 significant bits with round-to-nearest, ties to even
(exponent range is irrelevant here: all values involved are far from overflow
and underflow).
-/

inductive JVal where
  | null : JVal
  | bool : Bool → JVal
  | num : Int → JVal
  | str : String → JVal
  | arr : List JVal → JVal
  | obj : List (String × JVal) → JVal

/-- Python `dict` lookup on an association list (first matching key; keys of a
`json.load`ed dict are distinct). -/
def objGet (fields : List (String × JVal)) (k : String) : Option JVal :=
  match fields with
  | [] => none
  | (k', v) :: rest => if k' = k then some v else objGet rest k

/-- Python `dict` assignment: update an existing key in place (keeping its
position, as CPython dicts do) or append a new key at the end. -/
def objSet (fields : List (String × JVal)) (k : String) (v : JVal) :
    List (String × JVal) :=
  match fields with
  | [] => [(k, v)]
  | (k', v') :: rest => if k' = k then (k', v) :: rest else (k', v') :: objSet rest k v

/-- Python truthiness of a JSON value. -/
def pyTruthy : JVal → Bool
  | .null => false
  | .bool b => b
  | .num n => n ≠ 0
  | .str s => s ≠ ""
  | .arr xs => !xs.isEmpty
  | .obj fs => !fs.isEmpty

/-- Python `x == t` for a JSON value `x` and a `str` `t`: only a `str` can
compare equal to a `str`. -/
def pyEqStr : JVal → String → Bool
  | .str s, t => s == t
  | _, _ => false

/-- The contents of the backing file at the time `load` runs: the file is
missing, or exists but `open`/`json.load` raises, or parses to a JSON value. -/
inductive FileState where
  | missing : FileState
  | unparsable : FileState
  | parsed : JVal → FileState

/-- The default record `{"last_date": "", "daily": [], "todo": []}`. -/
def defaultData : JVal :=
  .obj [("last_date", .str ""), ("daily", .arr []), ("todo", .arr [])]

/-- The value of `self.data` right after the file-reading part of
`TaskManager.load` (lines 18-25), before the daily-reset step. -/
def TaskManager.loadData : FileState → JVal
  | .missing => defaultData
  | .unparsable => defaultData
  | .parsed j => j

/-- The loop `for task in ...: task["done"] = False` over the elements of a
JSON array: each element must support `["done"] = False` (i.e. be a dict),
otherwise the iteration raises `TypeError` at that element. -/
def resetElems : List JVal → Except String (List JVal)
  | [] => .ok []
  | e :: rest =>
    match e with
    | .obj efs =>
      match resetElems rest with
      | .ok rest' => .ok (.obj (objSet efs "done" (.bool false)) :: rest')
      | .error msg => .error msg
    | _ => .error "TypeError"

/-- The daily-reset step of `TaskManager.load` (lines 27-32), run on the value
read from the file.  `self.data.get` requires a dict (`AttributeError`
otherwise).  When the stored `"last_date"` differs from `today` the loop
clears the `done` flag of every element of `self.data.get("daily", [])`
(iterating a non-list raises unless it is empty: an empty `str` or dict
iterates zero times, numbers and `None`/booleans are not iterable), then
`"last_date"` is set and `self.save()` runs. -/
def TaskManager.loadStep (data : JVal) (today : String) :
    Except String (JVal × Option JVal) :=
  match data with
  | .obj fields =>
    if pyEqStr ((objGet fields "last_date").getD .null) today then
      .ok (.obj fields, none)
    else
      match
        (match objGet fields "daily" with
          | none => Except.ok fields
          | some (.arr xs) =>
            match resetElems xs with
            | .ok xs' => Except.ok (objSet fields "daily" (.arr xs'))
            | .error msg => Except.error msg
          | some (.str s) => if s = "" then Except.ok fields else Except.error "TypeError"
          | some (.obj gs) => if gs.isEmpty then Except.ok fields else Except.error "TypeError"
          | some _ => Except.error "TypeError") with
      | .error msg => .error msg
      | .ok fields₁ =>
        let fields₂ := objSet fields₁ "last_date" (.str today)
        .ok (.obj fields₂, some (.obj fields₂))
  | _ => .error "AttributeError"

/-- `TaskManager.load` (lines 17-32): read the file (defaulting on a missing
or unreadable file), then run the daily-reset step.  `today` stands for
`datetime.now().strftime("%Y-%m-%d")`. -/
def TaskManager.load (fs : FileState) (today : String) :
    Except String (JVal × Option JVal) :=
  TaskManager.loadStep (TaskManager.loadData fs) today

/-- `TaskManager.add_task` (lines 38-41): `self.data["daily" or "todo"]`
(`TypeError` if `self.data` is not a dict, `KeyError` if the key is absent),
then `.append({"text": text, "done": False})` (`AttributeError` if the target
is not a list), then `self.save()`. -/
def TaskManager.add_task (data : JVal) (text : String) (is_daily : Bool) :
    Except String (JVal × Option JVal) :=
  match data with
  | .obj fields =>
    match objGet fields (if is_daily then "daily" else "todo") with
    | some (.arr xs) =>
      let fields' := objSet fields (if is_daily then "daily" else "todo")
        (.arr (xs ++ [.obj [("text", .str text), ("done", .bool false)]]))
      .ok (.obj fields', some (.obj fields'))
    | some _ => .error "AttributeError"
    | none => .error "KeyError"
  | _ => .error "TypeError"

/-- `TaskManager.toggle_task` (lines 43-47).  The guard is the chained
comparison `0 <= index < len(target)`: when `index < 0` it short-circuits
(`len` is not called), otherwise `len(target)` raises `TypeError` on a
non-sized value.  In range, `target[index]["done"] = not target[index]["done"]`
needs a list of dicts with a `"done"` key, and `self.save()` runs; out of
range, the method silently does nothing. -/
def TaskManager.toggle_task (data : JVal) (is_daily : Bool) (index : Int) :
    Except String (JVal × Option JVal) :=
  match data with
  | .obj fields =>
    match objGet fields (if is_daily then "daily" else "todo") with
    | some target =>
      if index < 0 then .ok (.obj fields, none)
      else
        match target with
        | .arr xs =>
          if index < (xs.length : Int) then
            match xs.get? index.toNat with
            | some (.obj efs) =>
              match objGet efs "done" with
              | some v =>
                let efs' := objSet efs "done" (.bool (!pyTruthy v))
                let fields' := objSet fields (if is_daily then "daily" else "todo")
                  (.arr (xs.set index.toNat (.obj efs')))
                .ok (.obj fields', some (.obj fields'))
              | none => .error "KeyError"
            | some _ => .error "TypeError"
            | none => .error "IndexError"
          else .ok (.obj fields, none)
        | .str s => if index < (s.length : Int) then .error "TypeError" else .ok (.obj fields, none)
        | .obj gs => if index < (gs.length : Int) then .error "KeyError" else .ok (.obj fields, none)
        | _ => .error "TypeError"
    | none => .error "KeyError"
  | _ => .error "TypeError"

/-- `TaskManager.remove_task` (lines 49-53): same guard as `toggle_task`;
in range, `del target[index]` followed by `self.save()`; out of range, a
silent no-op. -/
def TaskManager.remove_task (data : JVal) (is_daily : Bool) (index : Int) :
    Except String (JVal × Option JVal) :=
  match data with
  | .obj fields =>
    match objGet fields (if is_daily then "daily" else "todo") with
    | some target =>
      if index < 0 then .ok (.obj fields, none)
      else
        match target with
        | .arr xs =>
          if index < (xs.length : Int) then
            let fields' := objSet fields (if is_daily then "daily" else "todo")
              (.arr (xs.eraseIdx index.toNat))
            .ok (.obj fields', some (.obj fields'))
          else .ok (.obj fields, none)
        | .str s => if index < (s.length : Int) then .error "TypeError" else .ok (.obj fields, none)
        | .obj gs => if index < (gs.length : Int) then .error "KeyError" else .ok (.obj fields, none)
        | _ => .error "TypeError"
    | none => .error "KeyError"
  | _ => .error "TypeError"

/-- A `{text, done}` task record (named `TaskItem` because `Task` is taken by
the Lean core library). -/
structure TaskItem where
  text : String
  done : Bool
deriving DecidableEq

/-- The typed task-store state: the record `TaskManager.load` maintains. -/
structure TMState where
  last_date : String
  daily : List TaskItem
  todo : List TaskItem
deriving DecidableEq

def TaskItem.toJVal (t : TaskItem) : JVal :=
  .obj [("text", .str t.text), ("done", .bool t.done)]

def TMState.toJVal (st : TMState) : JVal :=
  .obj [("last_date", .str st.last_date),
        ("daily", .arr (st.daily.map TaskItem.toJVal)),
        ("todo", .arr (st.todo.map TaskItem.toJVal))]

/-- Well-formedness of a task record as a JSON value: a dict with a `str`
`"text"` and a `bool` `"done"`. -/
def wfTask : JVal → Bool
  | .obj efs =>
    (match objGet efs "text" with | some (.str _) => true | _ => false) &&
    (match objGet efs "done" with | some (.bool _) => true | _ => false)
  | _ => false

/-- Well-formedness of the store state as a JSON value: a dict with a `str`
`"last_date"` and lists of well-formed task records at `"daily"` and
`"todo"`. -/
def wfState : JVal → Bool
  | .obj fields =>
    (match objGet fields "last_date" with | some (.str _) => true | _ => false) &&
    (match objGet fields "daily" with | some (.arr xs) => xs.all wfTask | _ => false) &&
    (match objGet fields "todo" with | some (.arr xs) => xs.all wfTask | _ => false)
  | _ => false

/-- The typed daily reset: what `load` does to a well-formed state whose
stored date differs from `today`. -/
def TMState.resetDaily (st : TMState) (today : String) : TMState :=
  ⟨today, st.daily.map (fun t => ⟨t.text, false⟩), st.todo⟩

/-- The typed effect of `add_task` on a well-formed state. -/
def TMState.addTask (st : TMState) (text : String) (is_daily : Bool) : TMState :=
  if is_daily then { st with daily := st.daily ++ [⟨text, false⟩] }
  else { st with todo := st.todo ++ [⟨text, false⟩] }

/-- Flip the `done` flag of entry `i` of a list (identity when out of range). -/
def flipAt (l : List TaskItem) (i : Nat) : List TaskItem :=
  match l.get? i with
  | some t => l.set i ⟨t.text, !t.done⟩
  | none => l

/-- The typed effect of `toggle_task` on a well-formed state. -/
def TMState.toggleTask (st : TMState) (is_daily : Bool) (i : Nat) : TMState :=
  if is_daily then { st with daily := flipAt st.daily i }
  else { st with todo := flipAt st.todo i }

/-- The typed effect of `remove_task` on a well-formed state. -/
def TMState.removeTask (st : TMState) (is_daily : Bool) (i : Nat) : TMState :=
  if is_daily then { st with daily := st.daily.eraseIdx i }
  else { st with todo := st.todo.eraseIdx i }

/-- The list the boolean `is_daily` selects. -/
def targetList (st : TMState) (is_daily : Bool) : List TaskItem :=
  if is_daily then st.daily else st.todo

/-- `TaskManager.get_undone_count` (lines 55-62): the number of entries with a
falsy `done` flag, over `daily` then `todo`. -/
def TaskManager.get_undone_count (st : TMState) : Nat :=
  st.daily.countP (fun t => !t.done) + st.todo.countP (fun t => !t.done)

/-- `FancyDock.check_reminders` (lines 121-133), as its observable effect:
the tray message shown (if any) and whether the handle strip was set red. -/
def FancyDock.check_reminders (st : TMState) : Option String × Bool :=
  if 0 < TaskManager.get_undone_count st then
    (some ("还有 " ++ toString (TaskManager.get_undone_count st) ++ " 个任务没做完呢！加油！(OwO)"), true)
  else (none, false)

/-- The scan `for i, task in enumerate(target): if task["text"] == s: ...；
break` used by `on_item_clicked` and `show_context_menu`: index of the first
entry whose text equals `s`. -/
def firstMatch (l : List TaskItem) (s : String) : Option Nat :=
  match l with
  | [] => none
  | t :: rest => if t.text = s then some 0 else (firstMatch rest s).map (· + 1)

/-- `FancyDock.on_item_clicked` (lines 285-292), as its effect on the store:
the clicked row carries `{"daily": is_daily, "text": clickedText}`; the first
entry of the selected list with that text is toggled (nothing happens if no
entry matches). -/
def FancyDock.on_item_clicked (st : TMState) (is_daily : Bool) (clickedText : String) : TMState :=
  match firstMatch (targetList st is_daily) clickedText with
  | some i => TMState.toggleTask st is_daily i
  | none => st

/-- The deletion branch of `FancyDock.show_context_menu` (lines 303-315), as
its effect on the store: the first entry of the selected list whose text
equals the clicked row's stored text is removed. -/
def FancyDock.show_context_menu (st : TMState) (is_daily : Bool) (clickedText : String) : TMState :=
  match firstMatch (targetList st is_daily) clickedText with
  | some i => TMState.removeTask st is_daily i
  | none => st

/-- Number of binary digits of `n` (fuel-based so that it is structurally
recursive and evaluates by kernel reduction). -/
def bitlenAux : Nat → Nat → Nat
  | 0, _ => 0
  | fuel + 1, n => if n = 0 then 0 else bitlenAux fuel (n / 2) + 1

def bitlen (n : Nat) : Nat := bitlenAux n n

/-- For positive `q`, the binade exponent `k` with `2^k ≤ q < 2^(k+1)`. -/
def qexp (q : ℚ) : Int :=
  if (2:ℚ) ^ ((bitlen q.num.toNat : Int) - (bitlen q.den : Int)) ≤ q then
    (bitlen q.num.toNat : Int) - (bitlen q.den : Int)
  else (bitlen q.num.toNat : Int) - (bitlen q.den : Int) - 1

/-- Round a rational to an integer, nearest, ties to even. -/
def rhe (m : ℚ) : Int :=
  if m - ⌊m⌋ < 1/2 then ⌊m⌋
  else if 1/2 < m - ⌊m⌋ then ⌊m⌋ + 1
  else if ⌊m⌋ % 2 = 0 then ⌊m⌋ else ⌊m⌋ + 1

/-- Round a positive rational to 53 significant binary digits (the IEEE-754
binary64 significand length), nearest, ties to even. -/
def flPos (q : ℚ) : ℚ :=
  (rhe (q * 2 ^ ((52:Int) - qexp q)) : ℚ) * 2 ^ (qexp q - (52:Int))

/-- IEEE-754 binary64 rounding of a rational (exponent range unbounded:
overflow and subnormals cannot occur in the quantities the dock computes). -/
def fl (q : ℚ) : ℚ :=
  if q = 0 then 0 else if q < 0 then -flPos (-q) else flPos q

/-- Python `int()` truncation (toward zero) of a real result. -/
def pyInt (q : ℚ) : Int :=
  if 0 ≤ q then ⌊q⌋ else -⌊-q⌋

/-- The `done_c` accumulator of `FancyDock.refresh_list` (lines 261-269). -/
def doneC (st : TMState) : Nat :=
  st.daily.countP (fun t => t.done) + st.todo.countP (fun t => t.done)

/-- The `total` accumulator of `FancyDock.refresh_list`. -/
def totalC (st : TMState) : Nat :=
  st.daily.length + st.todo.length

/-- The progress value `FancyDock.refresh_list` (lines 261-271) passes to the
progress bar: `0 if total == 0 else int((done_c/total)*100)`, with `/` and `*`
in binary64 floating point. -/
def FancyDock.refresh_list (st : TMState) : Int :=
  if totalC st = 0 then 0
  else pyInt (fl (fl ((doneC st : ℚ) / (totalC st : ℚ)) * 100))

/-- `load` succeeded and left a well-formed state in memory. -/
def okWf : Except String (JVal × Option JVal) → Bool
  | .ok (j, _) => wfState j
  | .error _ => false

/-- A parsable backing-file content on which `load` succeeds but the loaded
state is not well-formed: the single daily entry has a number for `"text"`
and a number for `"done"`. -/
def badLoadedJson : JVal :=
  .obj [("last_date", .str "2024-01-01"),
        ("daily", .arr [.obj [("text", .num 1), ("done", .num 2)]]),
        ("todo", .arr [])]

/-- Concrete state used to witness the toggle theorem. -/
def witToggleSt : TMState := ⟨"d", [⟨"a", true⟩], []⟩

/-- Concrete state used to witness the persistence theorem. -/
def witPersistSt : TMState := ⟨"x", [⟨"a", false⟩], []⟩

/-- Concrete state used to witness the duplicate-text click theorem: the todo
list holds two entries with the same text. -/
def witClickSt : TMState := ⟨"", [], [⟨"a", false⟩, ⟨"a", true⟩]⟩

/-- Concrete state used to witness the progress theorem: one of three done. -/
def witProgressSt : TMState := ⟨"", [⟨"a", true⟩], [⟨"b", false⟩, ⟨"c", false⟩]⟩

/-- Concrete state on which the float progress computation visibly deviates
from exact arithmetic: 29 of 100 tasks done. -/
def cexProgressSt : TMState :=
  ⟨"", List.replicate 29 ⟨"a", true⟩ ++ List.replicate 71 ⟨"a", false⟩, []⟩

/-! ### List helper lemmas -/

theorem tdGet?_map (f : α → β) : ∀ (l : List α) (i : Nat), (l.map f).get? i = (l.get? i).map f
  | [], _ => rfl
  | _ :: _, 0 => rfl
  | _ :: l, i + 1 => tdGet?_map f l i

theorem tdGet?_set_same : ∀ (l : List α) (i : Nat) (a : α), i < l.length → (l.set i a).get? i = some a
  | [], i, _, h => (Nat.not_lt_zero i h).elim
  | _ :: _, 0, _, _ => rfl
  | _ :: l, i + 1, a, h => tdGet?_set_same l i a (Nat.lt_of_succ_lt_succ h)

theorem tdGet?_set_ne : ∀ (l : List α) (i j : Nat) (a : α), i ≠ j → (l.set i a).get? j = l.get? j
  | [], _, _, _, _ => rfl
  | _ :: _, 0, 0, _, h => absurd rfl h
  | _ :: _, 0, _ + 1, _, _ => rfl
  | _ :: _, _ + 1, 0, _, _ => rfl
  | _ :: l, i + 1, j + 1, a, h => tdGet?_set_ne l i j a (fun e => h (by rw [e]))

theorem tdEraseIdx_set : ∀ (l : List α) (i : Nat) (a : α), (l.set i a).eraseIdx i = l.eraseIdx i
  | [], _, _ => rfl
  | _ :: _, 0, _ => rfl
  | a' :: l, i + 1, a => congrArg (a' :: ·) (tdEraseIdx_set l i a)

theorem tdMap_set (f : α → β) : ∀ (l : List α) (i : Nat) (a : α), (l.set i a).map f = (l.map f).set i (f a)
  | [], _, _ => rfl
  | _ :: _, 0, _ => rfl
  | a' :: l, i + 1, a => congrArg (f a' :: ·) (tdMap_set f l i a)

theorem tdGet?_exists : ∀ (l : List α) (i : Nat), i < l.length → ∃ a, l.get? i = some a
  | [], i, h => (Nat.not_lt_zero i h).elim
  | a :: _, 0, _ => ⟨a, rfl⟩
  | _ :: l, i + 1, h => tdGet?_exists l i (Nat.lt_of_succ_lt_succ h)

/-! ### Computation of the `TaskManager` methods on encoded states -/

@[simp] theorem resetElems_enc (l : List TaskItem) :
    resetElems (l.map TaskItem.toJVal) =
      .ok ((l.map fun t => (⟨t.text, false⟩ : TaskItem)).map TaskItem.toJVal) := by
  induction l with
  | nil => rfl
  | cons t rest ih => simp [resetElems, TaskItem.toJVal, objSet, ih]

theorem loadStep_enc (st : TMState) (today : String) :
    TaskManager.loadStep st.toJVal today =
      if st.last_date = today then .ok (st.toJVal, none)
      else .ok ((st.resetDaily today).toJVal, some ((st.resetDaily today).toJVal)) := by
  by_cases h : st.last_date = today
  · simp [TaskManager.loadStep, TMState.toJVal, objGet, pyEqStr, h]
  · simp [TaskManager.loadStep, TMState.toJVal, objGet, objSet, pyEqStr, h,
      TMState.resetDaily, List.map_map]

theorem add_task_enc (st : TMState) (text : String) (d : Bool) :
    TaskManager.add_task st.toJVal text d =
      .ok ((st.addTask text d).toJVal, some ((st.addTask text d).toJVal)) := by
  cases d <;>
    simp [TaskManager.add_task, TMState.toJVal, TMState.addTask, objGet, objSet,
      TaskItem.toJVal, List.map_append]

theorem toggle_task_enc (st : TMState) (d : Bool) (i : Nat)
    (h : i < (targetList st d).length) :
    TaskManager.toggle_task st.toJVal d (i : Int) =
      .ok ((st.toggleTask d i).toJVal, some ((st.toggleTask d i).toJVal)) := by
  obtain ⟨t, ht⟩ := tdGet?_exists (targetList st d) i h
  cases d <;>
  · simp only [targetList, Bool.false_eq_true, if_false, if_true, reduceCtorEq] at h ht
    simp [TaskManager.toggle_task, TMState.toJVal, TMState.toggleTask, objGet, objSet,
      TaskItem.toJVal, pyTruthy, flipAt, ht, h, tdGet?_map, tdMap_set,
      Int.toNat_natCast, not_lt.mpr (Int.natCast_nonneg i)]

theorem tdEraseIdx_map (f : α → β) : ∀ (l : List α) (i : Nat), (l.map f).eraseIdx i = (l.eraseIdx i).map f
  | [], _ => rfl
  | _ :: _, 0 => rfl
  | a :: l, i + 1 => congrArg (f a :: ·) (tdEraseIdx_map f l i)

theorem toggle_task_oob (st : TMState) (d : Bool) (i : Int)
    (h : i < 0 ∨ ((targetList st d).length : Int) ≤ i) :
    TaskManager.toggle_task st.toJVal d i = .ok (st.toJVal, none) := by
  rcases h with h | h
  · cases d <;> simp [TaskManager.toggle_task, TMState.toJVal, objGet, h]
  · have h0 : ¬ i < 0 := not_lt.mpr (le_trans (Int.natCast_nonneg _) h)
    cases d <;>
    · simp [targetList] at h
      simp [TaskManager.toggle_task, TMState.toJVal, objGet, h0, List.length_map, not_lt.mpr h]

theorem remove_task_enc (st : TMState) (d : Bool) (i : Nat)
    (h : i < (targetList st d).length) :
    TaskManager.remove_task st.toJVal d (i : Int) =
      .ok ((st.removeTask d i).toJVal, some ((st.removeTask d i).toJVal)) := by
  cases d <;>
  · simp [targetList] at h
    simp [TaskManager.remove_task, TMState.toJVal, TMState.removeTask, objGet, objSet,
      h, Int.toNat_natCast, not_lt.mpr (Int.natCast_nonneg i), tdEraseIdx_map]

theorem remove_task_oob (st : TMState) (d : Bool) (i : Int)
    (h : i < 0 ∨ ((targetList st d).length : Int) ≤ i) :
    TaskManager.remove_task st.toJVal d i = .ok (st.toJVal, none) := by
  rcases h with h | h
  · cases d <;> simp [TaskManager.remove_task, TMState.toJVal, objGet, h]
  · have h0 : ¬ i < 0 := not_lt.mpr (le_trans (Int.natCast_nonneg _) h)
    cases d <;>
    · simp [targetList] at h
      simp [TaskManager.remove_task, TMState.toJVal, objGet, h0, List.length_map, not_lt.mpr h]

@[simp] theorem wfTask_enc (t : TaskItem) : wfTask t.toJVal = true := rfl

@[simp] theorem wfState_enc (st : TMState) : wfState st.toJVal = true := by
  simp [wfState, TMState.toJVal, objGet, List.all_eq_true]

theorem flipAt_length (l : List TaskItem) (i : Nat) : (flipAt l i).length = l.length := by
  unfold flipAt; cases h : l.get? i <;> simp [List.length_set]

theorem flipAt_get?_same (l : List TaskItem) (i : Nat) (h : i < l.length) :
    (flipAt l i).get? i = (l.get? i).map (fun t => ⟨t.text, !t.done⟩) := by
  obtain ⟨t, ht⟩ := tdGet?_exists l i h
  unfold flipAt
  rw [ht]
  exact tdGet?_set_same l i _ h

theorem flipAt_eraseIdx (l : List TaskItem) (i : Nat) :
    (flipAt l i).eraseIdx i = l.eraseIdx i := by
  unfold flipAt; cases h : l.get? i <;> simp [tdEraseIdx_set]

theorem firstMatch_spec (s : String) : ∀ (l : List TaskItem) (i : Nat) (t : TaskItem),
    l.get? i = some t → t.text = s →
    ∃ k, firstMatch l s = some k ∧ k ≤ i ∧
      (l.take k).all (fun t' => !(t'.text == s)) = true ∧
      (l.get? k).map TaskItem.text = some s := by
  intro l
  induction l with
  | nil => intro i t ht; simp at ht
  | cons hd tl ih =>
    intro i t ht heq
    by_cases hh : hd.text = s
    · exact ⟨0, by simp [firstMatch, hh], Nat.zero_le _, by simp, by simp [hh]⟩
    · cases i with
      | zero =>
        rw [show (hd :: tl).get? 0 = some hd from rfl] at ht
        cases ht; exact absurd heq hh
      | succ i' =>
        obtain ⟨k, hk, hki, htake, hkt⟩ := ih i' t ht heq
        exact ⟨k + 1, by simp [firstMatch, hh, hk], Nat.succ_le_succ hki,
          by simp [hh, htake], by simpa using hkt⟩

/-! ### Claim theorems -/

/-- Claim C1: on every load of an encoded store state, if the stored last-reset
date differs from the current date then afterwards every daily entry's `done`
flag is `false` (texts kept), the stored date equals the current date, and the
resulting state is written to the backing file; if the stored date equals the
current date nothing changes and nothing is written.  The todo list is
untouched in both cases (see `TMState.resetDaily`). -/
theorem load_daily_reset_by_date (st : TMState) (today : String) :
    TaskManager.load (.parsed st.toJVal) today =
      if st.last_date = today then .ok (st.toJVal, none)
      else .ok ((st.resetDaily today).toJVal, some ((st.resetDaily today).toJVal)) :=
  loadStep_enc st today

/-- Claim C2: when the backing file is missing or unreadable/unparsable,
`load` does not raise: before the daily-reset step the in-memory state is the
empty default record `{last_date: "", daily: [], todo: []}`, and the whole
`load` returns a result for every current date. -/
theorem load_missing_or_unparsable_defaults (today : String) :
    TaskManager.loadData .missing = defaultData ∧
    TaskManager.loadData .unparsable = defaultData ∧
    defaultData = (TMState.mk "" [] []).toJVal ∧
    (∃ r, TaskManager.load .missing today = .ok r) ∧
    (∃ r, TaskManager.load .unparsable today = .ok r) := by
  refine ⟨rfl, rfl, rfl, ?_, ?_⟩ <;>
  · show ∃ r, TaskManager.loadStep (TMState.mk "" [] []).toJVal today = .ok r
    rw [loadStep_enc]
    by_cases he : (TMState.mk "" [] []).last_date = today
    · exact ⟨_, by rw [if_pos he]⟩
    · exact ⟨_, by rw [if_neg he]⟩

/-- Claim C3: `add_task` appends exactly one `{text, done: False}` record at
the end of the selected list, and leaves the other list and the last-reset
date unchanged (and therefore all pre-existing entries and their order). -/
theorem add_task_appends (st : TMState) (text : String) (d : Bool) :
    TaskManager.add_task st.toJVal text d =
      .ok ((st.addTask text d).toJVal, some ((st.addTask text d).toJVal)) ∧
    (st.addTask text d).last_date = st.last_date ∧
    targetList (st.addTask text d) d = targetList st d ++ [⟨text, false⟩] ∧
    targetList (st.addTask text d) (!d) = targetList st (!d) := by
  refine ⟨add_task_enc st text d, ?_⟩
  cases d <;> simp [TMState.addTask, targetList]

/-- Claim C4: for an in-range index, `toggle_task` negates the `done` flag of
entry `i` of the selected list and changes nothing else: the entry's text, all
other entries (`eraseIdx` of the list at `i` is unchanged), the other list and
the last-reset date are untouched, and the result is saved. -/
theorem toggle_task_flips_in_range (st : TMState) (d : Bool) (i : Nat)
    (h : i < (targetList st d).length) :
    TaskManager.toggle_task st.toJVal d (i : Int) =
      .ok ((st.toggleTask d i).toJVal, some ((st.toggleTask d i).toJVal)) ∧
    (st.toggleTask d i).last_date = st.last_date ∧
    targetList (st.toggleTask d i) (!d) = targetList st (!d) ∧
    (targetList (st.toggleTask d i) d).length = (targetList st d).length ∧
    (targetList (st.toggleTask d i) d).get? i =
      ((targetList st d).get? i).map (fun t => ⟨t.text, !t.done⟩) ∧
    (targetList (st.toggleTask d i) d).eraseIdx i = (targetList st d).eraseIdx i := by
  refine ⟨toggle_task_enc st d i h, ?_⟩
  cases d <;>
  · simp only [targetList, if_true, if_false, Bool.false_eq_true, Bool.not_false,
      Bool.not_true] at h ⊢
    refine ⟨rfl, rfl, ?_, ?_, ?_⟩
    · simp [TMState.toggleTask, flipAt_length]
    · simpa [TMState.toggleTask] using flipAt_get?_same _ i h
    · simp [TMState.toggleTask, flipAt_eraseIdx]

/-- Witness for C4 at a concrete in-range toggle. -/
theorem toggle_task_flips_in_range_witness :
    0 < (targetList witToggleSt true).length ∧
    (TaskManager.toggle_task witToggleSt.toJVal true ((0 : Nat) : Int) =
      .ok ((witToggleSt.toggleTask true 0).toJVal, some ((witToggleSt.toggleTask true 0).toJVal)) ∧
    (witToggleSt.toggleTask true 0).last_date = witToggleSt.last_date ∧
    targetList (witToggleSt.toggleTask true 0) (!true) = targetList witToggleSt (!true) ∧
    (targetList (witToggleSt.toggleTask true 0) true).length = (targetList witToggleSt true).length ∧
    (targetList (witToggleSt.toggleTask true 0) true).get? 0 =
      ((targetList witToggleSt true).get? 0).map (fun t => ⟨t.text, !t.done⟩) ∧
    (targetList (witToggleSt.toggleTask true 0) true).eraseIdx 0 =
      (targetList witToggleSt true).eraseIdx 0) :=
  ⟨by decide, toggle_task_flips_in_range witToggleSt true 0 (by decide)⟩

/-- Claim C5: every mutation is immediately persisted: `add_task`, in-range
`toggle_task` and `remove_task`, and a `load` that performed the daily reset
all write exactly the new in-memory state (the `some`-component equals the
state component). -/
theorem mutations_write_state (st : TMState) (text : String) (d : Bool) (i : Nat)
    (today : String) (hi : i < (targetList st d).length) (hdate : st.last_date ≠ today) :
    TaskManager.add_task st.toJVal text d =
      .ok ((st.addTask text d).toJVal, some ((st.addTask text d).toJVal)) ∧
    TaskManager.toggle_task st.toJVal d (i : Int) =
      .ok ((st.toggleTask d i).toJVal, some ((st.toggleTask d i).toJVal)) ∧
    TaskManager.remove_task st.toJVal d (i : Int) =
      .ok ((st.removeTask d i).toJVal, some ((st.removeTask d i).toJVal)) ∧
    TaskManager.load (.parsed st.toJVal) today =
      .ok ((st.resetDaily today).toJVal, some ((st.resetDaily today).toJVal)) := by
  refine ⟨add_task_enc st text d, toggle_task_enc st d i hi, remove_task_enc st d i hi, ?_⟩
  rw [show TaskManager.load (.parsed st.toJVal) today =
    TaskManager.loadStep st.toJVal today from rfl, loadStep_enc, if_neg hdate]

/-- Witness for C5 at a concrete state, index and date. -/
theorem mutations_write_state_witness :
    0 < (targetList witPersistSt true).length ∧
    witPersistSt.last_date ≠ "y" ∧
    (TaskManager.add_task witPersistSt.toJVal "b" true =
      .ok ((witPersistSt.addTask "b" true).toJVal, some ((witPersistSt.addTask "b" true).toJVal)) ∧
    TaskManager.toggle_task witPersistSt.toJVal true ((0 : Nat) : Int) =
      .ok ((witPersistSt.toggleTask true 0).toJVal, some ((witPersistSt.toggleTask true 0).toJVal)) ∧
    TaskManager.remove_task witPersistSt.toJVal true ((0 : Nat) : Int) =
      .ok ((witPersistSt.removeTask true 0).toJVal, some ((witPersistSt.removeTask true 0).toJVal)) ∧
    TaskManager.load (.parsed witPersistSt.toJVal) "y" =
      .ok ((witPersistSt.resetDaily "y").toJVal, some ((witPersistSt.resetDaily "y").toJVal))) :=
  ⟨by decide, by decide, mutations_write_state witPersistSt "b" true 0 "y" (by decide) (by decide)⟩

/-- Claim C9: for a negative or too-large index the code's guard fails (for a
negative index `len` is not even evaluated), so `toggle_task` and
`remove_task` leave the state untouched and write nothing. -/
theorem out_of_range_index_noop (st : TMState) (d : Bool) (i : Int)
    (h : i < 0 ∨ ((targetList st d).length : Int) ≤ i) :
    TaskManager.toggle_task st.toJVal d i = .ok (st.toJVal, none) ∧
    TaskManager.remove_task st.toJVal d i = .ok (st.toJVal, none) :=
  ⟨toggle_task_oob st d i h, remove_task_oob st d i h⟩

/-- Witness for C9 at a concrete negative index. -/
theorem out_of_range_index_noop_witness :
    ((-1 : Int) < 0 ∨ ((targetList witToggleSt true).length : Int) ≤ -1) ∧
    (TaskManager.toggle_task witToggleSt.toJVal true (-1) = .ok (witToggleSt.toJVal, none) ∧
    TaskManager.remove_task witToggleSt.toJVal true (-1) = .ok (witToggleSt.toJVal, none)) :=
  ⟨by decide, out_of_range_index_noop witToggleSt true (-1) (by decide)⟩

/-- Claim C6 counterexample: a parsable backing-file content (a JSON object
whose single daily entry has a number for `"text"` and a number for `"done"`)
on which `load` succeeds yet the loaded in-memory state violates the
well-formedness invariant. -/
theorem load_wf_counterexample :
    TaskManager.load (.parsed badLoadedJson) "2024-01-01" = .ok (badLoadedJson, none) ∧
    wfState badLoadedJson = false :=
  ⟨rfl, rfl⟩

/-- Claim C6 amended: well-formedness holds after `load` when the backing file
is missing, unparsable, or parses to the encoding of a well-formed state, and
is preserved (with no failure) by `add_task` and by `toggle_task` /
`remove_task` with arbitrary (also out-of-range) indices; it does not hold
for arbitrary parsable JSON contents. -/
theorem wf_preserved_amended (today : String) (st : TMState) (text : String)
    (d : Bool) (i : Int) :
    okWf (TaskManager.load .missing today) ∧
    okWf (TaskManager.load .unparsable today) ∧
    okWf (TaskManager.load (.parsed st.toJVal) today) ∧
    okWf (TaskManager.add_task st.toJVal text d) ∧
    okWf (TaskManager.toggle_task st.toJVal d i) ∧
    okWf (TaskManager.remove_task st.toJVal d i) := by
  have hload : ∀ st' : TMState, okWf (TaskManager.loadStep st'.toJVal today) = true := by
    intro st'
    rw [loadStep_enc]
    by_cases he : st'.last_date = today
    · rw [if_pos he]; simp [okWf]
    · rw [if_neg he]; simp [okWf]
  refine ⟨hload ⟨"", [], []⟩, hload ⟨"", [], []⟩, hload st, ?_, ?_, ?_⟩
  · rw [add_task_enc]; simp [okWf]
  · by_cases hneg : i < 0
    · rw [toggle_task_oob st d i (Or.inl hneg)]; simp [okWf]
    · by_cases hlen : i < ((targetList st d).length : Int)
      · have hi : (i.toNat : Int) = i := Int.toNat_of_nonneg (not_lt.mp hneg)
        have hnat : i.toNat < (targetList st d).length := by omega
        rw [← hi, toggle_task_enc st d i.toNat hnat]; simp [okWf]
      · rw [toggle_task_oob st d i (Or.inr (not_lt.mp hlen))]; simp [okWf]
  · by_cases hneg : i < 0
    · rw [remove_task_oob st d i (Or.inl hneg)]; simp [okWf]
    · by_cases hlen : i < ((targetList st d).length : Int)
      · have hi : (i.toNat : Int) = i := Int.toNat_of_nonneg (not_lt.mp hneg)
        have hnat : i.toNat < (targetList st d).length := by omega
        rw [← hi, remove_task_enc st d i.toNat hnat]; simp [okWf]
      · rw [remove_task_oob st d i (Or.inr (not_lt.mp hlen))]; simp [okWf]

/-- Claim C8: `check_reminders` shows a tray notification and turns the strip
red exactly when the undone count (over daily and todo together) is positive,
and the message reports exactly that count; when everything is done it shows
nothing and does not touch the strip. -/
theorem check_reminders_spec (st : TMState) :
    FancyDock.check_reminders st =
      (if 0 < TaskManager.get_undone_count st
        then (some ("还有 " ++ toString (TaskManager.get_undone_count st) ++ " 个任务没做完呢！加油！(OwO)"), true)
        else (none, false)) ∧
    ((FancyDock.check_reminders st).1.isSome ↔ 0 < TaskManager.get_undone_count st) ∧
    TaskManager.get_undone_count st = (st.daily ++ st.todo).countP (fun t => !t.done) := by
  refine ⟨rfl, ?_, ?_⟩
  · by_cases h : 0 < TaskManager.get_undone_count st <;> simp [FancyDock.check_reminders, h]
  · simp [TaskManager.get_undone_count, List.countP_append]

/-- Claim C10: a row click (or context-menu deletion) is resolved by scanning
the selected list for the first entry whose text equals the row's stored text;
with duplicate texts (positions `i < j` with equal text) the affected index is
at most `i`, never `j`: the earliest duplicate is toggled/removed, not
necessarily the clicked row. -/
theorem click_targets_first_text_match (st : TMState) (d : Bool) (i j : Nat)
    (ti tj : TaskItem) (hij : i < j)
    (hi : (targetList st d).get? i = some ti)
    (hj : (targetList st d).get? j = some tj)
    (heq : ti.text = tj.text) :
    firstMatch (targetList st d) tj.text ≠ none ∧
    (firstMatch (targetList st d) tj.text).getD 0 ≤ i ∧
    (firstMatch (targetList st d) tj.text).getD 0 ≠ j ∧
    ((targetList st d).take ((firstMatch (targetList st d) tj.text).getD 0)).all
      (fun t => !(t.text == tj.text)) = true ∧
    ((targetList st d).get? ((firstMatch (targetList st d) tj.text).getD 0)).map
      TaskItem.text = some tj.text ∧
    FancyDock.on_item_clicked st d tj.text =
      st.toggleTask d ((firstMatch (targetList st d) tj.text).getD 0) ∧
    FancyDock.show_context_menu st d tj.text =
      st.removeTask d ((firstMatch (targetList st d) tj.text).getD 0) := by
  obtain ⟨k, hk, hki, htake, hkt⟩ :=
    firstMatch_spec tj.text (targetList st d) i ti hi heq
  rw [hk]
  exact ⟨by simp, hki, Nat.ne_of_lt (lt_of_le_of_lt hki hij), htake, hkt,
    by simp [FancyDock.on_item_clicked, hk],
    by simp [FancyDock.show_context_menu, hk]⟩

/-- Witness for C10 on a todo list with two entries of equal text. -/
theorem click_targets_first_text_match_witness :
    (0 : Nat) < 1 ∧
    (targetList witClickSt false).get? 0 = some ⟨"a", false⟩ ∧
    (targetList witClickSt false).get? 1 = some ⟨"a", true⟩ ∧
    (firstMatch (targetList witClickSt false) "a" ≠ none ∧
    (firstMatch (targetList witClickSt false) "a").getD 0 ≤ 0 ∧
    (firstMatch (targetList witClickSt false) "a").getD 0 ≠ 1 ∧
    ((targetList witClickSt false).take ((firstMatch (targetList witClickSt false) "a").getD 0)).all
      (fun t => !(t.text == "a")) = true ∧
    ((targetList witClickSt false).get? ((firstMatch (targetList witClickSt false) "a").getD 0)).map
      TaskItem.text = some "a" ∧
    FancyDock.on_item_clicked witClickSt false "a" =
      witClickSt.toggleTask false ((firstMatch (targetList witClickSt false) "a").getD 0) ∧
    FancyDock.show_context_menu witClickSt false "a" =
      witClickSt.removeTask false ((firstMatch (targetList witClickSt false) "a").getD 0)) :=
  ⟨by decide, by decide, by decide,
    click_targets_first_text_match witClickSt false 0 1 ⟨"a", false⟩ ⟨"a", true⟩
      (by decide) (by decide) (by decide) (by decide)⟩

/-! ### Properties of the binary64 rounding model -/

theorem bitlenAux_zero : ∀ fuel, bitlenAux fuel 0 = 0
  | 0 => rfl
  | _ + 1 => rfl

theorem bitlenAux_spec : ∀ fuel n, 0 < n → n ≤ fuel →
    2 ^ (bitlenAux fuel n - 1) ≤ n ∧ n < 2 ^ bitlenAux fuel n := by
  intro fuel
  induction fuel with
  | zero => intro n h1 h2; omega
  | succ f ih =>
    intro n h1 h2
    rw [bitlenAux, if_neg (by omega : ¬ n = 0)]
    by_cases hn1 : n = 1
    · subst hn1
      norm_num [bitlenAux_zero]
    · have h2' : 0 < n / 2 := Nat.div_pos (by omega) (by omega)
      have h3 : n / 2 ≤ f := by omega
      obtain ⟨ihl, ihr⟩ := ih (n / 2) h2' h3
      set b := bitlenAux f (n / 2) with hb
      have hb1 : 1 ≤ b := by
        by_contra hb0
        have hbz : b = 0 := by omega
        rw [hbz] at ihr
        simp at ihr
        omega
      have hpow : 2 ^ b = 2 * 2 ^ (b - 1) := by
        conv_lhs => rw [show b = (b - 1) + 1 by omega]
        rw [pow_succ]; ring
      constructor
      · calc 2 ^ (b + 1 - 1) = 2 ^ b := rfl
        _ = 2 * 2 ^ (b - 1) := hpow
        _ ≤ 2 * (n / 2) := Nat.mul_le_mul_left 2 ihl
        _ ≤ n := by omega
      · calc n < 2 * (n / 2) + 2 := by omega
        _ ≤ 2 * 2 ^ b := by omega
        _ = 2 ^ (b + 1) := by rw [pow_succ]; ring

theorem bitlen_spec (n : Nat) (h : 0 < n) :
    2 ^ (bitlen n - 1) ≤ n ∧ n < 2 ^ bitlen n :=
  bitlenAux_spec n n h le_rfl

theorem bitlen_pos (n : Nat) (h : 0 < n) : 1 ≤ bitlen n := by
  obtain ⟨_, hr⟩ := bitlen_spec n h
  by_contra hb
  have hbz : bitlen n = 0 := by omega
  rw [hbz] at hr
  simp at hr
  omega

theorem qexp_le (q : ℚ) (hq : 0 < q) : (2:ℚ) ^ qexp q ≤ q := by
  unfold qexp
  split
  case isTrue h => exact h
  case isFalse h =>
    have hnum : (0:ℤ) < q.num := Rat.num_pos.mpr hq
    have ha : 0 < q.num.toNat := by omega
    have hb : 0 < q.den := q.pos
    obtain ⟨haL, _⟩ := bitlen_spec q.num.toNat ha
    obtain ⟨_, hbR⟩ := bitlen_spec q.den hb
    have hA1 : 1 ≤ bitlen q.num.toNat := bitlen_pos _ ha
    have hqeq : q = ((q.num.toNat : ℕ) : ℚ) / ((q.den : ℕ) : ℚ) := by
      rw [show ((q.num.toNat : ℕ) : ℚ) = ((q.num : ℤ) : ℚ) by
        rw [← Int.toNat_of_nonneg hnum.le]; push_cast; rfl]
      exact (Rat.num_div_den q).symm
    refine le_trans ?_ (le_of_eq hqeq.symm)
    rw [show ((bitlen q.num.toNat : ℤ) - (bitlen q.den : ℤ) - 1) =
      ((bitlen q.num.toNat - 1 : ℕ) : ℤ) - ((bitlen q.den : ℕ) : ℤ) by
        rw [Nat.cast_sub hA1]; push_cast; ring]
    rw [zpow_sub₀ (by norm_num : (2:ℚ) ≠ 0)]
    rw [div_le_div_iff (by positivity) (by positivity)]
    rw [show (2:ℚ) ^ ((bitlen q.num.toNat - 1 : ℕ) : ℤ) =
      ((2 ^ (bitlen q.num.toNat - 1) : ℕ) : ℚ) by push_cast [zpow_natCast]; ring]
    rw [show (2:ℚ) ^ ((bitlen q.den : ℕ) : ℤ) = ((2 ^ bitlen q.den : ℕ) : ℚ) by
      push_cast [zpow_natCast]; ring]
    exact_mod_cast Nat.mul_le_mul haL (le_of_lt hbR)

theorem rhe_abs (m : ℚ) : |(rhe m : ℚ) - m| ≤ 1 / 2 := by
  have h0 : (⌊m⌋ : ℚ) ≤ m := Int.floor_le m
  have h1 : m < ⌊m⌋ + 1 := Int.lt_floor_add_one m
  unfold rhe
  split
  case isTrue h =>
    rw [abs_le]; constructor <;> [linarith; linarith]
  case isFalse h =>
    split
    case isTrue h2 =>
      push_cast
      rw [abs_le]; constructor <;> [linarith; linarith]
    case isFalse h2 =>
      have htie : m - ⌊m⌋ = 1 / 2 := le_antisymm (not_lt.mp h2) (not_lt.mp h)
      split <;> (push_cast; rw [abs_le]; constructor <;> [linarith; linarith])

theorem flPos_err (q : ℚ) (hq : 0 < q) : |flPos q - q| ≤ q * (2:ℚ) ^ (-53 : ℤ) := by
  have hk : (2:ℚ) ^ qexp q ≤ q := qexp_le q hq
  have hmq : (q * 2 ^ ((52:ℤ) - qexp q)) * 2 ^ (qexp q - (52:ℤ)) = q := by
    rw [mul_assoc, ← zpow_add₀ (by norm_num : (2:ℚ) ≠ 0),
      show (52:ℤ) - qexp q + (qexp q - 52) = 0 by ring, zpow_zero, mul_one]
  have key : flPos q - q =
      ((rhe (q * 2 ^ ((52:ℤ) - qexp q)) : ℚ) - q * 2 ^ ((52:ℤ) - qexp q)) *
        2 ^ (qexp q - (52:ℤ)) := by
    rw [flPos, sub_mul, hmq]
  rw [key, abs_mul, abs_of_pos (a := (2:ℚ) ^ (qexp q - (52:ℤ))) (by positivity)]
  calc |(rhe (q * 2 ^ ((52:ℤ) - qexp q)) : ℚ) - q * 2 ^ ((52:ℤ) - qexp q)| *
        2 ^ (qexp q - (52:ℤ))
      ≤ (1 / 2) * 2 ^ (qexp q - (52:ℤ)) := by
        have := rhe_abs (q * 2 ^ ((52:ℤ) - qexp q))
        have hp : (0:ℚ) < 2 ^ (qexp q - (52:ℤ)) := by positivity
        nlinarith [this, hp]
    _ = 2 ^ (qexp q - (53:ℤ)) := by
        rw [show (1/2 : ℚ) = 2 ^ (-1 : ℤ) by norm_num,
          ← zpow_add₀ (by norm_num : (2:ℚ) ≠ 0)]
        congr 1; ring
    _ = 2 ^ qexp q * 2 ^ (-53 : ℤ) := by
        rw [← zpow_add₀ (by norm_num : (2:ℚ) ≠ 0)]
        congr 1
    _ ≤ q * 2 ^ (-53 : ℤ) := by
        have hp : (0:ℚ) < 2 ^ (-53 : ℤ) := by positivity
        nlinarith [hk, hp]

theorem fl_eq_flPos (q : ℚ) (hq : 0 < q) : fl q = flPos q := by
  rw [fl, if_neg hq.ne', if_neg (not_lt.mpr hq.le)]

theorem fl_err (q : ℚ) (hq : 0 < q) : |fl q - q| ≤ q * (2:ℚ) ^ (-53 : ℤ) := by
  rw [fl_eq_flPos q hq]; exact flPos_err q hq

theorem fl_err1 (q : ℚ) (hq : 0 < q) : |fl q - q| ≤ q * (1 / 2 ^ 53) := by
  have h := fl_err q hq
  rwa [show (2:ℚ) ^ (-53 : ℤ) = 1 / 2 ^ 53 by norm_num] at h

theorem fl_pos (q : ℚ) (hq : 0 < q) : 0 < fl q := by
  have h := (abs_le.mp (fl_err q hq)).1
  have hu : (2:ℚ) ^ (-53 : ℤ) < 1 := by norm_num
  nlinarith [h, hq, hu]

theorem doneC_le_totalC (st : TMState) : doneC st ≤ totalC st :=
  Nat.add_le_add (List.countP_le_length _) (List.countP_le_length _)

set_option maxHeartbeats 1600000 in
theorem floatProgress_floor (dN tN : ℕ) (hdt : dN ≤ tN) (ht : 0 < tN)
    (hbound : tN ≤ 2 ^ 40) :
    pyInt (fl (fl ((dN : ℚ) / (tN : ℚ)) * 100)) = ⌊(100 * (dN : ℚ)) / (tN : ℚ)⌋ ∨
      ((tN : ℤ) ∣ 100 * (dN : ℤ) ∧
        pyInt (fl (fl ((dN : ℚ) / (tN : ℚ)) * 100)) = ⌊(100 * (dN : ℚ)) / (tN : ℚ)⌋ - 1) := by
  have ht0 : (0:ℚ) < (tN:ℚ) := by exact_mod_cast ht
  by_cases hd : dN = 0
  · left
    subst hd
    norm_num [fl, pyInt]
  · have hd0 : (0:ℚ) < (dN:ℚ) := by exact_mod_cast Nat.pos_of_ne_zero hd
    set q1 : ℚ := (dN : ℚ) / (tN : ℚ) with hq1def
    have hq1p : 0 < q1 := div_pos hd0 ht0
    have hq1le : q1 ≤ 1 := by rw [hq1def, div_le_one ht0]; exact_mod_cast hdt
    set x1 : ℚ := fl q1 with hx1def
    set x2 : ℚ := fl (x1 * 100) with hx2def
    set E : ℚ := (100 * (dN : ℚ)) / (tN : ℚ) with hEdef
    have hu0 : (0:ℚ) < (1 / 2 ^ 53 : ℚ) := by norm_num
    have hu1 : (1 / 2 ^ 53 : ℚ) ≤ 1 := by norm_num
    have h1 := abs_le.mp (fl_err1 q1 hq1p)
    rw [← hx1def] at h1
    have hx1p : 0 < x1 := by rw [hx1def]; exact fl_pos q1 hq1p
    have h2 := abs_le.mp (fl_err1 (x1 * 100) (by positivity))
    rw [← hx2def] at h2
    have hx2p : 0 < x2 := by rw [hx2def]; exact fl_pos _ (by positivity)
    have hpy : pyInt x2 = ⌊x2⌋ := by rw [pyInt, if_pos hx2p.le]
    have hEq : E = q1 * 100 := by rw [hEdef, hq1def]; ring
    have hx1ub : x1 ≤ q1 * (1 + (1 / 2 ^ 53 : ℚ)) := by nlinarith [h1.2]
    have hx1le : x1 ≤ 1 + (1 / 2 ^ 53 : ℚ) := by nlinarith [hx1ub, hq1le, hu0]
    have hq1u : q1 * (1 / 2 ^ 53 : ℚ) ≤ (1 / 2 ^ 53 : ℚ) := by nlinarith [hq1le, hu0]
    have hx1u : x1 * (1 / 2 ^ 53 : ℚ) ≤
        (1 / 2 ^ 53 : ℚ) + (1 / 2 ^ 53 : ℚ) * (1 / 2 ^ 53 : ℚ) := by
      nlinarith [hx1le, hu0]
    have hUU : (1 / 2 ^ 53 : ℚ) * (1 / 2 ^ 53 : ℚ) ≤ (1 / 2 ^ 53 : ℚ) := by norm_num
    have herr : |x2 - E| ≤ 300 * (1 / 2 ^ 53 : ℚ) := by
      rw [abs_le, hEq]
      constructor
      · linarith [h1.1, h2.1, hq1u, hx1u, hUU]
      · linarith [h1.2, h2.2, hq1u, hx1u, hUU]
    have hB : 300 * (1 / 2 ^ 53 : ℚ) < 1 / (tN:ℚ) := by
      rw [lt_div_iff ht0]
      have htq : (tN:ℚ) ≤ 2 ^ 40 := by exact_mod_cast hbound
      calc 300 * (1 / 2 ^ 53 : ℚ) * tN ≤ 300 * (1 / 2 ^ 53 : ℚ) * 2 ^ 40 :=
            mul_le_mul_of_nonneg_left htq (by norm_num)
        _ < 1 := by norm_num
    have herr1 := (abs_le.mp herr).1
    have herr2 := (abs_le.mp herr).2
    have hx2low : E - 1 / (tN:ℚ) < x2 := by linarith [herr1, hB]
    have hx2high : x2 < E + 1 / (tN:ℚ) := by linarith [herr2, hB]
    by_cases hdvd : (tN : ℤ) ∣ 100 * (dN : ℤ)
    · obtain ⟨c, hc⟩ := hdvd
      have hcq : (100 * (dN:ℚ)) = (tN:ℚ) * (c:ℚ) := by exact_mod_cast hc
      have hEc : E = (c:ℚ) := by rw [hEdef, hcq, mul_div_cancel_left₀ _ ht0.ne']
      have hfloorE : ⌊E⌋ = c := by rw [hEc, Int.floor_intCast]
      have htge1 : 1 / (tN:ℚ) ≤ 1 := by
        rw [div_le_one ht0]; exact_mod_cast ht
      have hle : (c:ℚ) - 1 < x2 := by rw [← hEc]; linarith [hx2low, htge1]
      have hlt : x2 < (c:ℚ) + 1 := by rw [← hEc]; linarith [hx2high, htge1]
      have hfl : ⌊x2⌋ = c ∨ ⌊x2⌋ = c - 1 := by
        have h1' : c - 1 ≤ ⌊x2⌋ := Int.le_floor.mpr (by push_cast; linarith [hle])
        have h2' : ⌊x2⌋ < c + 1 := Int.floor_lt.mpr (by push_cast; linarith [hlt])
        omega
      rcases hfl with h | h
      · left; rw [hpy, h, hfloorE]
      · right; exact ⟨⟨c, hc⟩, by rw [hpy, h, hfloorE]⟩
    · left
      have hNle : (⌊E⌋ : ℚ) ≤ E := Int.floor_le E
      have hNlt : E < ⌊E⌋ + 1 := Int.lt_floor_add_one E
      have hEt : E * (tN:ℚ) = 100 * (dN:ℚ) := by
        rw [hEdef]; field_simp
      have hNt_le : (⌊E⌋:ℚ) * (tN:ℚ) ≤ 100 * (dN:ℚ) := by
        rw [← hEt]; exact mul_le_mul_of_nonneg_right hNle ht0.le
      have hNt_leZ : ⌊E⌋ * (tN:ℤ) ≤ 100 * (dN:ℤ) := by exact_mod_cast hNt_le
      have hNt_ltZ : ⌊E⌋ * (tN:ℤ) < 100 * (dN:ℤ) := by
        rcases lt_or_eq_of_le hNt_leZ with h | h
        · exact h
        · exact absurd ⟨⌊E⌋, by rw [← h]; ring⟩ hdvd
      have hupZ : 100 * (dN:ℤ) < (⌊E⌋ + 1) * (tN:ℤ) := by
        have hstep : E * (tN:ℚ) < ((⌊E⌋:ℚ) + 1) * (tN:ℚ) :=
          mul_lt_mul_of_pos_right hNlt ht0
        rw [hEt] at hstep
        exact_mod_cast hstep
      have hlowQ : (⌊E⌋:ℚ) * tN + 1 ≤ 100 * (dN:ℚ) := by
        exact_mod_cast hNt_ltZ
      have hupQ : 100 * (dN:ℚ) + 1 ≤ ((⌊E⌋:ℚ) + 1) * tN := by
        exact_mod_cast hupZ
      have hlow : (⌊E⌋:ℚ) + 1 / tN ≤ E := by
        rw [← mul_le_mul_right ht0]
        have expand : ((⌊E⌋:ℚ) + 1 / tN) * tN = ⌊E⌋ * tN + 1 := by field_simp
        rw [expand, hEt]
        exact hlowQ
      have hhigh : E + 1 / tN ≤ (⌊E⌋:ℚ) + 1 := by
        rw [← mul_le_mul_right ht0]
        have expand : (E + 1 / tN) * tN = E * tN + 1 := by field_simp
        rw [expand, hEt]
        exact hupQ
      have hfloorx2 : ⌊x2⌋ = ⌊E⌋ := by
        have hx2ge : (⌊E⌋:ℚ) ≤ x2 := by linarith [hx2low, hlow]
        have hx2lt : x2 < (⌊E⌋:ℚ) + 1 := by linarith [hx2high, hhigh]
        rw [Int.floor_eq_iff]
        exact ⟨hx2ge, hx2lt⟩
      rw [hpy, hfloorx2]

/-- Claim C7 amended: at every refresh the progress value is `0` when both
lists are empty; otherwise (for totals up to `2^40`) it equals
`⌊100 * done / total⌋`, except that the binary64 evaluation of
`int((done_c/total)*100)` can fall one short of it, which can only happen
when `total` divides `100 * done` (e.g. 29 done of 100 shows 28, not 29). -/
theorem refresh_list_progress_amended (st : TMState) (hbound : totalC st ≤ 2 ^ 40) :
    (totalC st = 0 → FancyDock.refresh_list st = 0) ∧
    (0 < totalC st →
      (FancyDock.refresh_list st = ⌊(100 * (doneC st : ℚ)) / (totalC st : ℚ)⌋ ∨
        ((totalC st : Int) ∣ 100 * (doneC st : Int) ∧
          FancyDock.refresh_list st =
            ⌊(100 * (doneC st : ℚ)) / (totalC st : ℚ)⌋ - 1))) := by
  constructor
  · intro h0
    rw [FancyDock.refresh_list, if_pos h0]
  · intro ht
    rw [FancyDock.refresh_list, if_neg (by omega)]
    exact floatProgress_floor (doneC st) (totalC st) (doneC_le_totalC st) ht hbound

/-- Witness for C7 (amended) at one done task of three. -/
theorem refresh_list_progress_amended_witness :
    totalC witProgressSt ≤ 2 ^ 40 ∧ 0 < totalC witProgressSt ∧
    (FancyDock.refresh_list witProgressSt =
        ⌊(100 * (doneC witProgressSt : ℚ)) / (totalC witProgressSt : ℚ)⌋ ∨
      ((totalC witProgressSt : Int) ∣ 100 * (doneC witProgressSt : Int) ∧
        FancyDock.refresh_list witProgressSt =
          ⌊(100 * (doneC witProgressSt : ℚ)) / (totalC witProgressSt : ℚ)⌋ - 1)) :=
  ⟨by decide, by decide,
    (refresh_list_progress_amended witProgressSt (by decide)).2 (by decide)⟩

set_option maxRecDepth 16000 in
set_option maxHeartbeats 1600000 in
/-- Claim C7 counterexample: with 29 of 100 tasks done the displayed value is
28, while the integer truncation of `100 * done / total` is 29: the float
product `(29/100)*100` rounds to just below 29. -/
theorem refresh_list_float_counterexample :
    doneC cexProgressSt = 29 ∧ totalC cexProgressSt = 100 ∧
    FancyDock.refresh_list cexProgressSt = 28 ∧
    (100 * (29:ℤ)) / 100 = 29 := by
  refine ⟨by decide, by decide, ?_, by decide⟩
  with_unfolding_all rfl
